import Mathlib

/-!
# Verification of the AiTrader backtesting core

A shallow embedding, in Lean 4, of the event-driven backtest engine of
`quant-python/backtester.py` — signal queue, position state machine, bar
loop, equity-curve builder, metrics engine — together with the vectorized
evaluator, and proofs of the behavioural properties claimed for them.

Modelling conventions:

* Python floats are modelled as exact rationals (`ℚ`).  Timestamps are
  rationals measured in minutes (the code only ever compares timestamps,
  subtracts them, and divides the difference by `pd.Timedelta(minutes=1)`;
  `.days` of a timedelta is the floor of the minute count over 1440).
* Python's `round` (round-half-to-even) is modelled exactly by `pyRound`;
  `int(...)` applied to a non-negative float is truncation, i.e. the floor.
* The two irrational operations of the metrics engine — the fractional
  power `**` inside `cagr` and the square root inside `sharpe`
  (`np.sqrt`, `.std`) — are abstracted as explicit function parameters
  `powFn`/`sqrtFn` of `computeMetrics`.  No property proved here depends
  on their values: every theorem about `computeMetrics` quantifies over
  them (constrained, where needed, only by non-negativity of the square
  root), so each theorem in particular applies to the real functions.
  `pow0`/`sqrt0` below are degenerate instantiations used to evaluate
  theorems at concrete inputs.
* IEEE non-finite values (NaN/Inf) arise in the metrics engine exactly
  where a division may have a zero denominator; such divisions are
  modelled with `qdivOpt : ℚ → ℚ → Option ℚ`, `none` standing for a
  non-finite float (exactly what `np.isfinite` rejects).  `numpy`'s NaN
  propagation through `min` is modelled in `maxDrawdownOpt`.
* The handful of named concrete records (`cexSig`, `tcrash`, `trades30`,
  …) are test inputs for evaluating the simulator and metrics engine at
  specific points; they are not part of the embedded program.
-/

namespace AiTrader

/-- `Side` enumeration from `strategies.py` (`class Side(str, Enum)`). -/
inductive Side where
  | buy
  | sell
deriving DecidableEq

/-- `StrategySignal` dataclass from `strategies.py` (all float fields as `ℚ`,
timestamps in minutes).  The diagnostic `metadata : Dict[str, float]` is a
field the backtester never reads; it is carried as an association list. -/
structure StrategySignal where
  timestamp : ℚ
  instrument : String
  strategy : String
  side : Side
  entry : ℚ
  stop : ℚ
  target : ℚ
  score : ℚ
  risk_fraction : ℚ
  metadata : List (String × ℚ)
deriving DecidableEq

/-- A market-data row as consumed by `_simulate_trades`: the loop reads
`row["timestamp"]`, `row["close"]` and `row.get("high", row["close"])`,
`row.get("low", row["close"])`.  The `high`/`low` columns may be absent,
hence `Option ℚ` (`none` models a missing field; `row.get` then yields the
close).  Other columns (`open`, `volume`, indicator columns) are never read
by the simulator and are not represented. -/
structure Bar where
  timestamp : ℚ
  close : ℚ
  highOpt : Option ℚ
  lowOpt : Option ℚ
deriving DecidableEq

/-- `TradeResult` dataclass from `backtester.py`. -/
structure TradeResult where
  entry_time : ℚ
  exit_time : ℚ
  entry_price : ℚ
  exit_price : ℚ
  side : Side
  stop_price : ℚ
  target_price : ℚ
  pnl : ℚ
  r_multiple : ℚ
  bars_held : ℤ
  exit_reason : String
  strategy : String
deriving DecidableEq

/-- A default trade record (used only as the default value of `List.getD`;
never reached in any theorem whose indices are in range). -/
def dfltTrade : TradeResult :=
  ⟨0, 0, 0, 0, Side.buy, 0, 0, 0, 0, 0, "", ""⟩

instance : Inhabited TradeResult := ⟨dfltTrade⟩

/-- The transient open-position record of `_simulate_trades`
(`open_position = {"signal": ..., "entry_price": ..., "entry_time": ...}`). -/
structure OpenPos where
  signal : StrategySignal
  entry_price : ℚ
  entry_time : ℚ
deriving DecidableEq

/-- The loop state of `_simulate_trades`: the not-yet-consumed suffix of the
sorted signal list (the cursor `signal_idx` is modelled by dropping the
consumed prefix), the optional open position, and the ledger built so far. -/
structure SimState where
  pending : List StrategySignal
  openPos : Option OpenPos
  trades : List TradeResult
deriving DecidableEq

/-- Python's `round` on a rational: round-half-to-even (banker's rounding),
exactly as `round(float)` behaves in Python 3. -/
def pyRound (x : ℚ) : ℤ :=
  let f := ⌊x⌋
  let r := x - f
  if r < 1/2 then f
  else if 1/2 < r then f + 1
  else if f % 2 = 0 then f else f + 1

/-- Exit evaluation of an open position against one bar, lines 144–157 of
`backtester.py`: for a BUY, `low <= stop` is checked first (reason `stop`,
price `stop*(1-slip)`), then `high >= target` (reason `target`, price
`target*(1-slip)`); for a SELL the mirror checks `high >= stop` then
`low <= target` with prices `stop*(1+slip)` / `target*(1+slip)`. -/
def evalExit (side : Side) (stopPrice targetPrice low high slip : ℚ) :
    Option (String × ℚ) :=
  match side with
  | Side.buy =>
      if low ≤ stopPrice then some ("stop", stopPrice * (1 - slip))
      else if targetPrice ≤ high then some ("target", targetPrice * (1 - slip))
      else none
  | Side.sell =>
      if stopPrice ≤ high then some ("stop", stopPrice * (1 + slip))
      else if low ≤ targetPrice then some ("target", targetPrice * (1 + slip))
      else none

/-- Exit evaluation including the forced-expiry rule of lines 159–161: if
neither stop nor target fired and the current bar is the last one, exit with
reason `expiry` at `close*(1-slip)` for a BUY and `close*(1+slip)` for a
SELL. -/
def evalExitFull (side : Side) (stopPrice targetPrice low high slip : ℚ)
    (isLast : Bool) (close : ℚ) : Option (String × ℚ) :=
  match evalExit side stopPrice targetPrice low high slip with
  | some e => some e
  | none =>
      if isLast then
        some ("expiry", close * (if side = Side.buy then 1 - slip else 1 + slip))
      else none

/-- The close-or-hold part of one loop iteration (lines 131–196): with a
position `p` open, read the effective high/low (falling back to the close
for a missing column), evaluate the exit; if no exit fires keep the
position, otherwise build the `TradeResult` (pnl net of commission,
R-multiple with the `1e-6`-floored risk, `bars_held` as
`max(round(minutes_held), 1)`) and append it to the ledger. -/
def closePosition (slip comm : ℚ) (isLast : Bool) (bar : Bar)
    (pending : List StrategySignal) (trades : List TradeResult)
    (p : OpenPos) : SimState :=
  let s := p.signal
  let high := bar.highOpt.getD bar.close
  let low := bar.lowOpt.getD bar.close
  match evalExitFull s.side s.stop s.target low high slip isLast bar.close with
  | none => ⟨pending, some p, trades⟩
  | some (reason, exitPrice) =>
      let pnl :=
        (if s.side = Side.buy then exitPrice - p.entry_price
         else p.entry_price - exitPrice) - comm
      let risk := max |p.entry_price - s.stop| (1/1000000)
      let holdingMinutes :=
        if p.entry_time < bar.timestamp then bar.timestamp - p.entry_time else 0
      ⟨pending, none,
        trades ++
          [⟨p.entry_time, bar.timestamp, p.entry_price, exitPrice, s.side,
            s.stop, s.target, pnl, pnl / risk, max (pyRound holdingMinutes) 1,
            reason, s.strategy⟩]⟩

/-- One iteration of the `for bar_idx, row in df.iterrows()` loop of
`_simulate_trades` (lines 105–196): pull every pending signal due at or
before the bar's timestamp (advancing the cursor past all of them), open a
position on the first pulled signal when flat — entry price
`entry*(1+slip)` for BUY, `entry*(1-slip)` for SELL — and then run the
exit evaluation on the (possibly just opened) position. -/
def stepBar (slip comm : ℚ) (isLast : Bool) (bar : Bar) (st : SimState) :
    SimState :=
  let due := fun s : StrategySignal => decide (s.timestamp ≤ bar.timestamp)
  let pending := st.pending.dropWhile due
  let afterEntry : Option OpenPos :=
    match st.openPos with
    | some p => some p
    | none =>
        match st.pending.takeWhile due with
        | [] => none
        | s :: _ =>
            some ⟨s,
              if s.side = Side.buy then s.entry * (1 + slip)
              else s.entry * (1 - slip),
              bar.timestamp⟩
  match afterEntry with
  | none => ⟨pending, none, st.trades⟩
  | some p => closePosition slip comm isLast bar pending st.trades p

/-- Drive `stepBar` over the bar list in order; the `bar_idx == len(df)-1`
test of line 159 holds exactly when the remaining suffix is empty. -/
def runBars (slip comm : ℚ) : List Bar → SimState → SimState
  | [], st => st
  | b :: rest, st => runBars slip comm rest (stepBar slip comm rest.isEmpty b st)

/-- `sorted(signals, key=lambda s: s.timestamp)` (line 99): a stable sort by
ascending timestamp.  `List.insertionSort` with `≤` on timestamps is stable,
like Python's sort. -/
def sortSignals (signals : List StrategySignal) : List StrategySignal :=
  List.insertionSort (fun a b => a.timestamp ≤ b.timestamp) signals

/-- The final simulator state: the loop of `_simulate_trades` run over all
bars starting flat, with the time-sorted signal queue. -/
def simulateFinal (slippageBps commission : ℚ) (bars : List Bar)
    (signals : List StrategySignal) : SimState :=
  runBars (slippageBps / 10000) commission bars ⟨sortSignals signals, none, []⟩

/-- `EventDrivenBacktester._simulate_trades` (lines 93–198): empty signal
or bar input short-circuits to an empty ledger (line 94); otherwise the
ledger accumulated by the bar loop, with `slippage = slippage_bps/10_000`
(line 97). -/
def simulateTrades (slippageBps commission : ℚ) (bars : List Bar)
    (signals : List StrategySignal) : List TradeResult :=
  if signals.isEmpty || bars.isEmpty then []
  else (simulateFinal slippageBps commission bars signals).trades

/-- `EventDrivenBacktester._build_equity_curve`, starting from a given
running equity: one `(exit_time, equity)` point per trade, equity being the
running sum of pnl. -/
def buildFrom (equity : ℚ) : List TradeResult → List (ℚ × ℚ)
  | [] => []
  | t :: ts => (t.exit_time, equity + t.pnl) :: buildFrom (equity + t.pnl) ts

/-- `EventDrivenBacktester._build_equity_curve` (lines 200–208). -/
def buildEquityCurve (initialEquity : ℚ) (trades : List TradeResult) :
    List (ℚ × ℚ) :=
  buildFrom initialEquity trades

/-- Division with an explicit non-finite result: `none` models the IEEE
NaN/Inf a float division by zero produces (which is what `np.isfinite`
rejects). -/
def qdivOpt (a b : ℚ) : Option ℚ := if b = 0 then none else some (a / b)

/-- Minimum of a list of rationals (`numpy.min`); junk value `0` on the
empty list, which no guarded call site reaches. -/
def listMin : List ℚ → ℚ
  | [] => 0
  | x :: xs => xs.foldl min x

/-- `np.maximum.accumulate` from a given running maximum. -/
def runningMaxFrom (cur : ℚ) : List ℚ → List ℚ
  | [] => []
  | x :: xs => max cur x :: runningMaxFrom (max cur x) xs

/-- `np.maximum.accumulate` (line 228): element `i` is the maximum of the
first `i+1` inputs. -/
def runningMax : List ℚ → List ℚ
  | [] => []
  | x :: xs => x :: runningMaxFrom x xs

/-- Sum-over-length mean (`numpy.mean`); junk value `0` on the empty list
(every call site below is guarded by a non-empty slice). -/
def meanOf (l : List ℚ) : ℚ := l.sum / l.length

/-- `np.sort` ascending (line 249). -/
def sortAsc (l : List ℚ) : List ℚ := List.insertionSort (fun a b : ℚ => a ≤ b) l

/-- Lines 249–251 of `_compute_metrics`:
`cutoff = int(max(len(r) * 0.05, 1))` — `int` truncates, and the argument is
`≥ 1`, so this is the floor — and `cvar = sorted_returns[:cutoff].mean()` when
`cutoff > 0`, else `sorted_returns[0]` (a dead branch, since `cutoff ≥ 1`). -/
def cvar95 (r : List ℚ) : ℚ :=
  let sortedReturns := sortAsc r
  let cutoff := (⌊max ((r.length : ℚ) * (1/20)) 1⌋).toNat
  if 0 < cutoff then meanOf (sortedReturns.take cutoff)
  else (sortedReturns.headD 0)

/-- Modelled from the spec's words (§4.4 / claim C2), for comparison with
the source's `cvar95`: sort ascending and average the worst
`max(round(5% of count), 1)` entries, with Python's `round`. -/
def cvar95Claimed (r : List ℚ) : ℚ :=
  let sortedReturns := sortAsc r
  let cutoff := (max (pyRound ((r.length : ℚ) * (1/20))) 1).toNat
  meanOf (sortedReturns.take cutoff)

/-- The drawdown vector of line 229, `(equity - peak) / peak` elementwise;
a zero peak yields a non-finite float, modelled as `none`. -/
def drawdownsOpt (equity : List ℚ) : List (Option ℚ) :=
  (equity.zip (runningMax equity)).map (fun pr => qdivOpt (pr.1 - pr.2) pr.2)

/-- `drawdowns.min()` of line 230 with numpy's NaN propagation: non-finite
as soon as one entry is non-finite, else the finite minimum. -/
def maxDrawdownOpt (equity : List ℚ) : Option ℚ :=
  let dds := drawdownsOpt equity
  if dds.all Option.isSome then some (listMin (dds.filterMap id)) else none

/-- `BacktestMetrics` dataclass.  Fields that the source builds from
divisions that can blow up are `Option ℚ` (`none` = a non-finite float was
reported); `cagr` stays `ℚ` because its fractional power is abstracted. -/
structure BacktestMetrics where
  cagr : ℚ
  sharpe : Option ℚ
  mar : Option ℚ
  max_drawdown : Option ℚ
  win_rate : Option ℚ
  payoff : Option ℚ
  expectancy : Option ℚ
  exposure : Option ℚ
  cvar_95 : Option ℚ
deriving DecidableEq

/-- The all-zero metrics object returned for an empty ledger (line 212). -/
def zeroMetrics : BacktestMetrics :=
  ⟨0, some 0, some 0, some 0, some 0, some 0, some 0, some 0, some 0⟩

/-- `EventDrivenBacktester._compute_metrics` (lines 210–263).
`powFn base expo` abstracts the float `base ** expo` of line 222 and
`sqrtFn` abstracts `np.sqrt`/`.std`'s square root; all other arithmetic is
carried exactly.  The equity curve argument is the `(timestamp, equity)`
list produced by `_build_equity_curve`.  The coercions of lines 256 and 259
(`mar`/`payoff` forced to `0.0` when non-finite) appear as `Option.getD 0`;
`max_drawdown` (line 257) is reported without any such coercion. -/
def computeMetrics (powFn : ℚ → ℚ → ℚ) (sqrtFn : ℚ → ℚ)
    (initialEquity : ℚ) (trades : List TradeResult)
    (curve : List (ℚ × ℚ)) : BacktestMetrics :=
  match trades with
  | [] => zeroMetrics
  | t0 :: _ =>
      let pnl := trades.map (fun t => t.pnl)
      let r := trades.map (fun t => t.r_multiple)
      let n : ℚ := trades.length
      let equity := curve.map Prod.snd
      let finalEquity := (equity.getLastD 0)
      let lastT := trades.getLastD t0
      let days : ℤ := ⌊(lastT.exit_time - t0.entry_time) / 1440⌋
      let years : ℚ := max ((days : ℚ) / (1461/4)) (1/1000000)
      let cagr :=
        if 0 < finalEquity then powFn (finalEquity / initialEquity) (1 / years) - 1
        else -1
      let returns := pnl.map (fun x => x / initialEquity)
      let meanRet := returns.sum / n
      let varRet := (returns.map (fun x => (x - meanRet) ^ 2)).sum / n
      let sharpe := (qdivOpt meanRet (sqrtFn varRet + 1/1000000000)).map
        (fun q => q * sqrtFn n)
      let maxDd := maxDrawdownOpt equity
      let marRaw : Option ℚ :=
        match maxDd with
        | some d => if d < 0 then some (cagr / |d|) else none
        | none => none
      let mar := some (marRaw.getD 0)
      let wins := pnl.filter (fun x => decide (0 < x))
      let losses := pnl.filter (fun x => decide (¬ 0 < x))
      let winRate := qdivOpt wins.length n
      let payoffRaw : Option ℚ :=
        if wins ≠ [] ∧ losses ≠ [] then qdivOpt (meanOf wins) |meanOf losses|
        else if wins ≠ [] then some (meanOf wins)
        else some 0
      let payoff := some (payoffRaw.getD 0)
      let expectancy := qdivOpt pnl.sum n
      let timeInMarket : ℚ := (trades.map (fun t => (t.bars_held : ℚ))).sum
      let totalMinutes := max (lastT.exit_time - t0.entry_time) timeInMarket
      let exposure : Option ℚ :=
        if totalMinutes = 0 then some 0 else qdivOpt timeInMarket totalMinutes
      ⟨cagr, sharpe, mar, maxDd, winRate, payoff, expectancy, exposure,
        some (cvar95 r)⟩

/-- A row of the pre-labelled feature frame consumed by
`VectorizedBacktester.run` (after the `dropna` on `future_return`/`label`):
the loop reads `label`, `close`, `future_return`, the timestamp, and
`row.get("sma20", ...)` (absent column modelled as `none`). -/
structure VRow where
  timestamp : ℚ
  close : ℚ
  future_return : ℚ
  label : ℤ
  sma20 : Option ℚ
deriving DecidableEq

/-- A default row for `List.getD` (never reached at in-range indices). -/
def dfltVRow : VRow := ⟨0, 0, 0, 0, none⟩

/-- The trade built for one labelled row at index `i` of the frame
(lines 292–320): side BUY iff `label == 1`, entry at the close, exit price
`close*(1+future_return)` for both sides, exit time from the row at index
`min(i+H, len-1)`, risk `max(|close - sma20|, 1e-6)` with the close itself
as fallback reference, `bars_held = H`, reason `vector`. -/
def vecTrade (horizon : ℕ) (rows : List VRow) (i : ℕ) (row : VRow) :
    TradeResult :=
  let side := if row.label = 1 then Side.buy else Side.sell
  let entryPrice := row.close
  let exitPrice := row.close * (1 + row.future_return)
  let exitTime := (rows.getD (min (i + horizon) (rows.length - 1)) dfltVRow).timestamp
  let pnl := if side = Side.buy then exitPrice - entryPrice else entryPrice - exitPrice
  let risk := max |row.close - (row.sma20.getD row.close)| (1/1000000)
  ⟨row.timestamp, exitTime, entryPrice, exitPrice, side,
    (if side = Side.buy then row.close - risk else row.close + risk),
    exitPrice, pnl, pnl / risk, (horizon : ℤ), "vector", "VECTOR_LABEL"⟩

/-- `VectorizedBacktester.run`'s trade loop (lines 287–320): one trade per
row with a nonzero label, in row order, none for label `0`. -/
def vectorizedRun (horizon : ℕ) (rows : List VRow) : List TradeResult :=
  (rows.enum.filter (fun pr => pr.2.label != 0)).map
    (fun pr => vecTrade horizon rows pr.1 pr.2)

/-- Fill in absent high/low columns with the close. -/
def fillBar (b : Bar) : Bar :=
  ⟨b.timestamp, b.close, some (b.highOpt.getD b.close), some (b.lowOpt.getD b.close)⟩

/-- Loop invariant for the interval-ordering claim: every closed trade lies
weakly before `cut` (a time strictly below every unprocessed bar), trade
intervals are well-formed and pairwise disjoint in order, and an open
position began no later than `cut` and strictly after every closed exit. -/
def InvState (st : SimState) (cut : ℚ) : Prop :=
  (∀ t ∈ st.trades, t.entry_time ≤ t.exit_time)
  ∧ st.trades.Pairwise (fun a b => a.exit_time < b.entry_time)
  ∧ (∀ t ∈ st.trades, t.exit_time ≤ cut)
  ∧ ∀ p, st.openPos = some p →
      p.entry_time ≤ cut ∧ ∀ t ∈ st.trades, t.exit_time < p.entry_time

/-- The slippage-adjusted entry price of lines 116–120. -/
def adjEntry (slip : ℚ) (s : StrategySignal) : ℚ :=
  if s.side = Side.buy then s.entry * (1 + slip) else s.entry * (1 - slip)

/-- Loop invariant for the R-multiple claim: every closed trade's R-multiple
divides its pnl by the `1e-6`-floored distance between its (slippage-adjusted)
entry price and its stop, and both the open position's and every trade's
entry price is the adjusted entry of one of the input signals. -/
def InvRisk (slip : ℚ) (signals : List StrategySignal) (st : SimState) : Prop :=
  (∀ t ∈ st.trades,
    t.r_multiple = t.pnl / max |t.entry_price - t.stop_price| (1/1000000)
    ∧ ∃ s ∈ signals, t.stop_price = s.stop ∧ t.entry_price = adjEntry slip s)
  ∧ (∀ p, st.openPos = some p →
      p.signal ∈ signals ∧ p.entry_price = adjEntry slip p.signal)
  ∧ st.pending ⊆ signals

/-- C9 counterexample input: a BUY signal whose stop sits exactly midway
between the raw entry (100) and the 5 bps adjusted entry (100.05). -/
def cexSig : StrategySignal :=
  ⟨0, "ES", "TPB_VWAP", Side.buy, 100, 4001/40, 110, 1, 1/400, []⟩

/-- C9 counterexample bar: triggers the stop exit on the first bar. -/
def cexBar : Bar := ⟨0, 100, some 101, some 90⟩

/-- The single trade the counterexample run produces. -/
def cexTrade : TradeResult :=
  ⟨0, 0, 2001/20, 7997999/80000, Side.buy, 4001/40, 110, -6001/80000,
    -6001/2000, 1, "stop", "TPB_VWAP"⟩

/-- Degenerate instantiation of the abstracted fractional power, used only
to instantiate theorems at concrete inputs. -/
def pow0 : ℚ → ℚ → ℚ := fun _ _ => 0

/-- Degenerate instantiation of the abstracted square root (non-negative,
as the real square root is), used only to instantiate theorems. -/
def sqrt0 : ℚ → ℚ := fun _ => 0

/-- R-multiples refuting the rounded slice size: 30 trades, so the claimed
slice is `max(round(1.5),1) = 2` but the code truncates to `1`. -/
def rs30 : List ℚ := [-3, -1] ++ List.replicate 28 0

/-- A ledger carrying the `rs30` R-multiples. -/
def trades30 : List TradeResult := rs30.map (fun q => { dfltTrade with r_multiple := q })

/-- The spec's 10-trade CVaR example ledger. -/
def trades10 : List TradeResult :=
  ([-3, -2, -1, 0, 1, 2, 3, 4, 5, 6] : List ℚ).map
    (fun q => { dfltTrade with r_multiple := q })

/-- C4 counterexample ledger: one trade losing the whole initial equity, so
the running peak of the equity curve is `0`. -/
def tcrash : TradeResult :=
  ⟨0, 10, 200000, 100000, Side.buy, 190000, 210000, -100000, -10, 10, "stop", "VRB"⟩

/-- A plain winning trade for the C4 witness. -/
def wTrade : TradeResult :=
  ⟨0, 10, 100, 105, Side.buy, 98, 104, 5, 5/2, 10, "target", "ORB15"⟩

lemma closePosition_last_open (slip comm : ℚ) (bar : Bar)
    (pending : List StrategySignal) (trades : List TradeResult) (p : OpenPos) :
    (closePosition slip comm true bar pending trades p).openPos = none := by
  cases h : evalExit p.signal.side p.signal.stop p.signal.target
      (bar.lowOpt.getD bar.close) (bar.highOpt.getD bar.close) slip with
  | none => simp [closePosition, evalExitFull, h]
  | some e => cases e with
    | mk reason price => simp [closePosition, evalExitFull, h]

lemma stepBar_last_open (slip comm : ℚ) (bar : Bar) (st : SimState) :
    (stepBar slip comm true bar st).openPos = none := by
  cases hop : st.openPos with
  | some p => simpa [stepBar, hop] using closePosition_last_open slip comm bar _ st.trades p
  | none =>
    cases ht : st.pending.takeWhile (fun s => decide (s.timestamp ≤ bar.timestamp)) with
    | nil => simp [stepBar, hop, ht]
    | cons s rest => simpa [stepBar, hop, ht] using closePosition_last_open slip comm bar _ st.trades _

lemma runBars_open_none (slip comm : ℚ) :
    ∀ (bars : List Bar) (st : SimState),
      (bars = [] → st.openPos = none) →
      (runBars slip comm bars st).openPos = none
  | [], st, h => h rfl
  | b :: rest, st, _h => by
      rw [runBars]
      exact runBars_open_none slip comm rest _
        (fun hr => by subst hr; exact stepBar_last_open slip comm b st)

/-- C1: in the event-driven exit evaluation the stop check runs first.  When
a BUY bar breaches the stop (`low <= stop`) the exit is `stop` at
`stop*(1-slip)` even if the target is also breached, and symmetrically for a
SELL (`high >= stop` first, exit `stop*(1+slip)`); the `target` branch is
reached only when the stop condition is false, both at the level of
`evalExit` and of the trade appended to the ledger by `closePosition`. -/
theorem C1_stop_precedence (slip comm stopPrice targetPrice low high : ℚ) :
    (low ≤ stopPrice →
      evalExit Side.buy stopPrice targetPrice low high slip =
        some ("stop", stopPrice * (1 - slip)))
    ∧ (stopPrice ≤ high →
      evalExit Side.sell stopPrice targetPrice low high slip =
        some ("stop", stopPrice * (1 + slip)))
    ∧ (∀ pr, evalExit Side.buy stopPrice targetPrice low high slip = some ("target", pr) →
        ¬ low ≤ stopPrice ∧ pr = targetPrice * (1 - slip))
    ∧ (∀ pr, evalExit Side.sell stopPrice targetPrice low high slip = some ("target", pr) →
        ¬ stopPrice ≤ high ∧ pr = targetPrice * (1 + slip))
    ∧ (∀ (isLast : Bool) (bar : Bar) (pending : List StrategySignal)
        (trades : List TradeResult) (p : OpenPos),
        p.signal.side = Side.buy → bar.lowOpt.getD bar.close ≤ p.signal.stop →
        (closePosition slip comm isLast bar pending trades p).trades.map
            (fun t => (t.exit_reason, t.exit_price)) =
          trades.map (fun t => (t.exit_reason, t.exit_price)) ++
            [("stop", p.signal.stop * (1 - slip))])
    ∧ (∀ (isLast : Bool) (bar : Bar) (pending : List StrategySignal)
        (trades : List TradeResult) (p : OpenPos),
        p.signal.side = Side.sell → p.signal.stop ≤ bar.highOpt.getD bar.close →
        (closePosition slip comm isLast bar pending trades p).trades.map
            (fun t => (t.exit_reason, t.exit_price)) =
          trades.map (fun t => (t.exit_reason, t.exit_price)) ++
            [("stop", p.signal.stop * (1 + slip))]) := by
  refine ⟨fun h => by simp [evalExit, h], fun h => by simp [evalExit, h], ?_, ?_, ?_, ?_⟩
  · intro pr h
    by_cases h1 : low ≤ stopPrice
    · simp [evalExit, h1] at h
    · by_cases h2 : targetPrice ≤ high <;> simp [evalExit, h1, h2] at h
      exact ⟨h1, h.symm⟩
  · intro pr h
    by_cases h1 : stopPrice ≤ high
    · simp [evalExit, h1] at h
    · by_cases h2 : low ≤ targetPrice <;> simp [evalExit, h1, h2] at h
      exact ⟨h1, h.symm⟩
  · intro isLast bar pending trades p hside hlow
    have he : evalExitFull p.signal.side p.signal.stop p.signal.target
        (bar.lowOpt.getD bar.close) (bar.highOpt.getD bar.close) slip isLast bar.close =
        some ("stop", p.signal.stop * (1 - slip)) := by
      simp [evalExitFull, evalExit, hside, hlow]
    simp [closePosition, he]
  · intro isLast bar pending trades p hside hhigh
    have he : evalExitFull p.signal.side p.signal.stop p.signal.target
        (bar.lowOpt.getD bar.close) (bar.highOpt.getD bar.close) slip isLast bar.close =
        some ("stop", p.signal.stop * (1 + slip)) := by
      simp [evalExitFull, evalExit, hside, hhigh]
    simp [closePosition, he]

/-- C1 witness: the spec's own example. -/
theorem C1_witness :
    ((98 : ℚ) ≤ 99 ∧
      evalExit Side.buy 99 105 98 106 (5/10000) = some ("stop", 99 * (1 - 5/10000))) :=
  ⟨by norm_num, (C1_stop_precedence (5/10000) 0 99 105 98 106).1 (by norm_num)⟩

/-- C6: a position still open on the last bar with neither stop nor target
breached is force-closed with reason `expiry` at the bar's slippage-adjusted
close (`close*(1-slip)` for BUY, `close*(1+slip)` for SELL), and no run ends
with a position left open. -/
theorem C6_forced_expiry (slippageBps commission : ℚ) :
    (∀ stopPrice targetPrice low high close : ℚ,
      stopPrice < low → high < targetPrice →
      evalExitFull Side.buy stopPrice targetPrice low high (slippageBps/10000) true close =
        some ("expiry", close * (1 - slippageBps/10000)))
    ∧ (∀ stopPrice targetPrice low high close : ℚ,
      high < stopPrice → targetPrice < low →
      evalExitFull Side.sell stopPrice targetPrice low high (slippageBps/10000) true close =
        some ("expiry", close * (1 + slippageBps/10000)))
    ∧ (∀ (bar : Bar) (pending : List StrategySignal) (trades : List TradeResult)
        (p : OpenPos),
        p.signal.side = Side.buy →
        p.signal.stop < bar.lowOpt.getD bar.close →
        bar.highOpt.getD bar.close < p.signal.target →
        (closePosition (slippageBps/10000) commission true bar pending trades p).trades.map
            (fun t => (t.exit_reason, t.exit_price)) =
          trades.map (fun t => (t.exit_reason, t.exit_price)) ++
            [("expiry", bar.close * (1 - slippageBps/10000))])
    ∧ (∀ (bar : Bar) (pending : List StrategySignal) (trades : List TradeResult)
        (p : OpenPos),
        p.signal.side = Side.sell →
        bar.highOpt.getD bar.close < p.signal.stop →
        p.signal.target < bar.lowOpt.getD bar.close →
        (closePosition (slippageBps/10000) commission true bar pending trades p).trades.map
            (fun t => (t.exit_reason, t.exit_price)) =
          trades.map (fun t => (t.exit_reason, t.exit_price)) ++
            [("expiry", bar.close * (1 + slippageBps/10000))])
    ∧ (∀ (bars : List Bar) (signals : List StrategySignal),
      (simulateFinal slippageBps commission bars signals).openPos = none) := by
  refine ⟨?_, ?_, ?_, ?_, ?_⟩
  · intro stopPrice targetPrice low high close h1 h2
    simp [evalExitFull, evalExit, not_le.2 h1, not_le.2 h2]
  · intro stopPrice targetPrice low high close h1 h2
    simp [evalExitFull, evalExit, not_le.2 h1, not_le.2 h2]
  · intro bar pending trades p hside h1 h2
    have he : evalExitFull p.signal.side p.signal.stop p.signal.target
        (bar.lowOpt.getD bar.close) (bar.highOpt.getD bar.close) (slippageBps/10000)
        true bar.close = some ("expiry", bar.close * (1 - slippageBps/10000)) := by
      simp [evalExitFull, evalExit, hside, not_le.2 h1, not_le.2 h2]
    simp [closePosition, he]
  · intro bar pending trades p hside h1 h2
    have he : evalExitFull p.signal.side p.signal.stop p.signal.target
        (bar.lowOpt.getD bar.close) (bar.highOpt.getD bar.close) (slippageBps/10000)
        true bar.close = some ("expiry", bar.close * (1 + slippageBps/10000)) := by
      simp [evalExitFull, evalExit, hside, not_le.2 h1, not_le.2 h2]
    simp [closePosition, he]
  · intro bars signals
    exact runBars_open_none _ _ bars _ (fun _ => rfl)

/-- C6 witness: a BUY position with stop 90 and target 105 against a last
bar with low 95, high 100, close 100 expires at the adjusted close. -/
theorem C6_witness :
    ((90 : ℚ) < 95 ∧ (100 : ℚ) < 105 ∧
      evalExitFull Side.buy 90 105 95 100 (5/10000) true 100 =
        some ("expiry", 100 * (1 - 5/10000))) :=
  ⟨by norm_num, by norm_num,
    (C6_forced_expiry 5 0).1 90 105 95 100 100 (by norm_num) (by norm_num)⟩

lemma runBars_fill (slip comm : ℚ) :
    ∀ (bars : List Bar) (st : SimState),
      runBars slip comm (bars.map fillBar) st = runBars slip comm bars st
  | [], _ => rfl
  | b :: rest, st => by
      have hm : (rest.map fillBar).isEmpty = rest.isEmpty := by cases rest <;> rfl
      rw [List.map_cons, runBars, runBars, hm]
      exact runBars_fill slip comm rest _

/-- C10: a bar lacking a `high` or `low` field does not make the simulator
fail; the bar's close is substituted for the missing column(s), both for a
single loop step and for a whole simulation run. -/
theorem C10_missing_high_low :
    (∀ (slip comm : ℚ) (isLast : Bool) (ts close : ℚ) (st : SimState),
      stepBar slip comm isLast ⟨ts, close, none, none⟩ st =
        stepBar slip comm isLast ⟨ts, close, some close, some close⟩ st)
    ∧ (∀ (slippageBps commission : ℚ) (bars : List Bar) (signals : List StrategySignal),
      simulateTrades slippageBps commission bars signals =
        simulateTrades slippageBps commission (bars.map fillBar) signals) := by
  constructor
  · intro slip comm isLast ts close st
    rfl
  · intro slippageBps commission bars signals
    have hm : (bars.map fillBar).isEmpty = bars.isEmpty := by cases bars <;> rfl
    simp only [simulateTrades, hm]
    rw [simulateFinal, simulateFinal, runBars_fill]

/-- C5: empty input is not an error.  An empty signal sequence or an empty
bar sequence yields an empty trade ledger, and the metrics of an empty
ledger are the all-zero `BacktestMetrics` (cagr, sharpe, mar, max_drawdown,
win_rate, payoff, expectancy, exposure, cvar_95 all `0.0`). -/
theorem C5_empty_inputs (slippageBps commission : ℚ) (powFn : ℚ → ℚ → ℚ)
    (sqrtFn : ℚ → ℚ) (initialEquity : ℚ) (bars : List Bar)
    (signals : List StrategySignal) (curve : List (ℚ × ℚ))
    (h : signals = [] ∨ bars = []) :
    simulateTrades slippageBps commission bars signals = []
    ∧ computeMetrics powFn sqrtFn initialEquity [] curve = zeroMetrics
    ∧ zeroMetrics =
        ⟨0, some 0, some 0, some 0, some 0, some 0, some 0, some 0, some 0⟩ := by
  refine ⟨?_, rfl, rfl⟩
  cases h with
  | inl h => subst h; simp [simulateTrades]
  | inr h => subst h; simp [simulateTrades]

/-- C5 witness. -/
theorem C5_witness :
    simulateTrades 5 0 [⟨0, 100, some 101, some 99⟩] [] = []
    ∧ computeMetrics (fun _ _ => 0) (fun _ => 0) 100000 [] [] = zeroMetrics
    ∧ zeroMetrics =
        ⟨0, some 0, some 0, some 0, some 0, some 0, some 0, some 0, some 0⟩ :=
  C5_empty_inputs 5 0 (fun _ _ => 0) (fun _ => 0) 100000 _ [] [] (Or.inl rfl)

lemma buildFrom_length (ts : List TradeResult) :
    ∀ e : ℚ, (buildFrom e ts).length = ts.length := by
  induction ts with
  | nil => intro e; rfl
  | cons t ts ih => intro e; simp [buildFrom, ih]

lemma buildFrom_get (ts : List TradeResult) :
    ∀ (e : ℚ) (i : ℕ) (t : TradeResult), ts[i]? = some t →
      (buildFrom e ts)[i]? =
        some (t.exit_time, e + ((ts.take (i+1)).map (fun s => s.pnl)).sum) := by
  induction ts with
  | nil => intro e i t h; simp at h
  | cons t0 ts ih =>
    intro e i t h
    cases i with
    | zero =>
      simp at h
      subst h
      simp [buildFrom]
    | succ i =>
      simp only [List.getElem?_cons_succ] at h
      have := ih (e + t0.pnl) i t h
      simp only [buildFrom, List.getElem?_cons_succ, this, List.take_succ_cons,
        List.map_cons, List.sum_cons]
      ring_nf

/-- C7: the equity curve has exactly one point per trade; point `i` carries
the exit time of trade `i` and equity `initial_equity + sum(pnl[0..=i])`. -/
theorem C7_equity_curve (initialEquity : ℚ) (trades : List TradeResult) :
    (buildEquityCurve initialEquity trades).length = trades.length
    ∧ ∀ (i : ℕ) (t : TradeResult), trades[i]? = some t →
        (buildEquityCurve initialEquity trades)[i]? =
          some (t.exit_time, initialEquity + ((trades.take (i+1)).map (fun s => s.pnl)).sum) :=
  ⟨buildFrom_length trades initialEquity,
    fun i t h => buildFrom_get trades initialEquity i t h⟩

/-- C7 witness. -/
theorem C7_witness :
    (buildEquityCurve 100 [dfltTrade, dfltTrade])[1]? =
      some (dfltTrade.exit_time,
        100 + (([dfltTrade, dfltTrade].take 2).map (fun s => s.pnl)).sum) :=
  (C7_equity_curve 100 [dfltTrade, dfltTrade]).2 1 dfltTrade (by decide)

lemma closePosition_inv (slip comm : ℚ) (isLast : Bool) (bar : Bar)
    (pending : List StrategySignal) (trades : List TradeResult) (p : OpenPos)
    (h1 : ∀ t ∈ trades, t.entry_time ≤ t.exit_time)
    (h2 : trades.Pairwise (fun a b => a.exit_time < b.entry_time))
    (h3 : ∀ t ∈ trades, t.exit_time < bar.timestamp)
    (hp1 : p.entry_time ≤ bar.timestamp)
    (hp2 : ∀ t ∈ trades, t.exit_time < p.entry_time) :
    InvState (closePosition slip comm isLast bar pending trades p) bar.timestamp := by
  cases h : evalExitFull p.signal.side p.signal.stop p.signal.target
      (bar.lowOpt.getD bar.close) (bar.highOpt.getD bar.close) slip isLast bar.close with
  | none =>
    refine ⟨?_, ?_, ?_, ?_⟩ <;> simp only [closePosition, h]
    · exact h1
    · exact h2
    · exact fun t ht => (h3 t ht).le
    · intro q hq
      obtain rfl : p = q := Option.some.inj hq
      exact ⟨hp1, hp2⟩
  | some e =>
    cases e with
    | mk reason price =>
      refine ⟨?_, ?_, ?_, ?_⟩ <;> simp only [closePosition, h]
      · intro t ht
        rcases List.mem_append.1 ht with hold | hnew
        · exact h1 t hold
        · simp only [List.mem_singleton] at hnew
          subst hnew
          exact hp1
      · rw [List.pairwise_append]
        refine ⟨h2, List.pairwise_singleton _ _, ?_⟩
        intro a ha b hb
        simp only [List.mem_singleton] at hb
        subst hb
        exact hp2 a ha
      · intro t ht
        rcases List.mem_append.1 ht with hold | hnew
        · exact (h3 t hold).le
        · simp only [List.mem_singleton] at hnew
          subst hnew
          exact le_refl _
      · rintro q hq
        exact absurd hq (by simp)

lemma stepBar_inv (slip comm : ℚ) (isLast : Bool) (bar : Bar) (st : SimState)
    (cut : ℚ) (hinv : InvState st cut) (hcut : cut < bar.timestamp) :
    InvState (stepBar slip comm isLast bar st) bar.timestamp := by
  obtain ⟨h1, h2, h3, h4⟩ := hinv
  cases hop : st.openPos with
  | some p =>
    have hp := h4 p hop
    have : stepBar slip comm isLast bar st =
        closePosition slip comm isLast bar
          (st.pending.dropWhile (fun s => decide (s.timestamp ≤ bar.timestamp)))
          st.trades p := by
      simp [stepBar, hop]
    rw [this]
    exact closePosition_inv slip comm isLast bar _ st.trades p h1 h2
      (fun t ht => (h3 t ht).trans_lt hcut) (hp.1.trans hcut.le) hp.2
  | none =>
    cases ht : st.pending.takeWhile (fun s => decide (s.timestamp ≤ bar.timestamp)) with
    | nil =>
      refine ⟨?_, ?_, ?_, ?_⟩ <;> simp only [stepBar, hop, ht]
      · exact h1
      · exact h2
      · exact fun t htt => (h3 t htt).trans hcut.le
      · rintro q hq
        exact absurd hq (by simp)
    | cons s rest =>
      have : stepBar slip comm isLast bar st =
          closePosition slip comm isLast bar
            (st.pending.dropWhile (fun s => decide (s.timestamp ≤ bar.timestamp)))
            st.trades
            ⟨s, if s.side = Side.buy then s.entry * (1 + slip) else s.entry * (1 - slip),
              bar.timestamp⟩ := by
        simp [stepBar, hop, ht]
      rw [this]
      exact closePosition_inv slip comm isLast bar _ st.trades _ h1 h2
        (fun t htt => (h3 t htt).trans_lt hcut) (le_refl _)
        (fun t htt => (h3 t htt).trans_lt hcut)

lemma runBars_inv (slip comm : ℚ) :
    ∀ (bars : List Bar) (st : SimState) (cut : ℚ),
      (bars.map (fun b => b.timestamp)).Pairwise (fun a b => a < b) →
      (∀ b ∈ bars, cut < b.timestamp) →
      InvState st cut →
      ∃ cut2, InvState (runBars slip comm bars st) cut2
  | [], st, cut, _, _, hinv => ⟨cut, hinv⟩
  | b :: rest, st, cut, hsort, hlt, hinv => by
      rw [runBars]
      rw [List.map_cons, List.pairwise_cons] at hsort
      exact runBars_inv slip comm rest _ b.timestamp hsort.2
        (fun b2 hb2 => hsort.1 b2.timestamp (List.mem_map_of_mem _ hb2))
        (stepBar_inv slip comm rest.isEmpty b st cut hinv
          (hlt b (List.mem_cons_self b rest)))

/-- C3: with strictly increasing bar timestamps, at most one position is
open at any simulated time — in the resulting ledger every trade's interval
is well-formed (`entry_time <= exit_time`), any two trades' intervals are
disjoint with each entry strictly after the previous exit, and the ledger is
sorted by exit time (non-decreasingly). -/
theorem C3_no_overlap (slippageBps commission : ℚ) (bars : List Bar)
    (signals : List StrategySignal)
    (hb : (bars.map (fun b => b.timestamp)).Pairwise (fun a b => a < b)) :
    (∀ t ∈ simulateTrades slippageBps commission bars signals,
      t.entry_time ≤ t.exit_time)
    ∧ (simulateTrades slippageBps commission bars signals).Pairwise
        (fun a b => a.exit_time < b.entry_time)
    ∧ (simulateTrades slippageBps commission bars signals).Pairwise
        (fun a b => a.exit_time ≤ b.exit_time) := by
  by_cases hguard : signals.isEmpty || bars.isEmpty
  · simp [simulateTrades, hguard]
  · have hrun : simulateTrades slippageBps commission bars signals =
        (simulateFinal slippageBps commission bars signals).trades := by
      simp [simulateTrades, hguard]
    cases hbars : bars with
    | nil => simp [hbars] at hguard
    | cons b0 rest =>
      subst hbars
      have hlt : ∀ b ∈ b0 :: rest, b0.timestamp - 1 < b.timestamp := by
        intro b hbmem
        rcases List.mem_cons.1 hbmem with rfl | hbmem
        · linarith
        · have := (List.pairwise_cons.1 (by simpa using hb)).1 b.timestamp
            (List.mem_map_of_mem _ hbmem)
        
          linarith
      have hinv0 : InvState ⟨sortSignals signals, none, []⟩ (b0.timestamp - 1) := by
        refine ⟨by simp, by simp, by simp, ?_⟩
        rintro p hp
        exact absurd hp (by simp)
      obtain ⟨cut2, hinv⟩ := runBars_inv (slippageBps / 10000) commission (b0 :: rest)
        ⟨sortSignals signals, none, []⟩ (b0.timestamp - 1) hb hlt hinv0
      rw [hrun]
      refine ⟨hinv.1, hinv.2.1, ?_⟩
      exact List.Pairwise.imp_of_mem
        (fun ha hb hr => hr.le.trans (hinv.1 _ hb)) hinv.2.1

/-- C3 witness: the ordering conclusions at a concrete two-bar run. -/
theorem C3_witness :
    (simulateTrades 5 0
        [⟨0, 100, some 101, some 90⟩, ⟨10, 101, some 102, some 100⟩]
        [⟨0, "ES", "ORB15", Side.buy, 100, 95, 101, 1, 1/400, []⟩]).Pairwise
        (fun a b => a.exit_time < b.entry_time)
    ∧ (simulateTrades 5 0
        [⟨0, 100, some 101, some 90⟩, ⟨10, 101, some 102, some 100⟩]
        [⟨0, "ES", "ORB15", Side.buy, 100, 95, 101, 1, 1/400, []⟩]).Pairwise
        (fun a b => a.exit_time ≤ b.exit_time) :=
  ⟨(C3_no_overlap 5 0 _ _ (by decide)).2.1,
    (C3_no_overlap 5 0 _ _ (by decide)).2.2⟩

lemma closePosition_invRisk (slip comm : ℚ) (isLast : Bool) (bar : Bar)
    (pending : List StrategySignal) (trades : List TradeResult) (p : OpenPos)
    (signals : List StrategySignal)
    (h1 : ∀ t ∈ trades,
      t.r_multiple = t.pnl / max |t.entry_price - t.stop_price| (1/1000000)
      ∧ ∃ s ∈ signals, t.stop_price = s.stop ∧ t.entry_price = adjEntry slip s)
    (hp : p.signal ∈ signals ∧ p.entry_price = adjEntry slip p.signal)
    (hpend : pending ⊆ signals) :
    InvRisk slip signals (closePosition slip comm isLast bar pending trades p) := by
  cases h : evalExitFull p.signal.side p.signal.stop p.signal.target
      (bar.lowOpt.getD bar.close) (bar.highOpt.getD bar.close) slip isLast bar.close with
  | none =>
    refine ⟨?_, ?_, ?_⟩ <;> simp only [closePosition, h]
    · exact h1
    · intro q hq
      obtain rfl : p = q := Option.some.inj hq
      exact hp
    · exact hpend
  | some e =>
    cases e with
    | mk reason price =>
      refine ⟨?_, ?_, ?_⟩ <;> simp only [closePosition, h]
      · intro t ht
        rcases List.mem_append.1 ht with hold | hnew
        · exact h1 t hold
        · simp only [List.mem_singleton] at hnew
          subst hnew
          exact ⟨rfl, p.signal, hp.1, rfl, hp.2⟩
      · intro q hq
        exact absurd hq (by simp)
      · exact hpend

lemma stepBar_invRisk (slip comm : ℚ) (isLast : Bool) (bar : Bar) (st : SimState)
    (signals : List StrategySignal) (hinv : InvRisk slip signals st) :
    InvRisk slip signals (stepBar slip comm isLast bar st) := by
  obtain ⟨h1, h2, h3⟩ := hinv
  have hdrop : st.pending.dropWhile (fun s => decide (s.timestamp ≤ bar.timestamp)) ⊆ signals :=
    fun x hx =>
      h3 ((List.dropWhile_sublist (fun s => decide (s.timestamp ≤ bar.timestamp))).subset hx)
  cases hop : st.openPos with
  | some p =>
    have hrw : stepBar slip comm isLast bar st =
        closePosition slip comm isLast bar
          (st.pending.dropWhile (fun s => decide (s.timestamp ≤ bar.timestamp)))
          st.trades p := by
      simp [stepBar, hop]
    rw [hrw]
    exact closePosition_invRisk slip comm isLast bar _ st.trades p signals h1 (h2 p hop) hdrop
  | none =>
    cases ht : st.pending.takeWhile (fun s => decide (s.timestamp ≤ bar.timestamp)) with
    | nil =>
      refine ⟨?_, ?_, ?_⟩ <;> simp only [stepBar, hop, ht]
      · exact h1
      · intro q hq
        exact absurd hq (by simp)
      · exact hdrop
    | cons s rest =>
      have hs : s ∈ signals := by
        apply h3
        apply (List.takeWhile_sublist (fun s => decide (s.timestamp ≤ bar.timestamp))).subset
        rw [ht]
        exact List.mem_cons_self s rest
      have hrw : stepBar slip comm isLast bar st =
          closePosition slip comm isLast bar
            (st.pending.dropWhile (fun s => decide (s.timestamp ≤ bar.timestamp)))
            st.trades
            ⟨s, if s.side = Side.buy then s.entry * (1 + slip) else s.entry * (1 - slip),
              bar.timestamp⟩ := by
        simp [stepBar, hop, ht]
      rw [hrw]
      exact closePosition_invRisk slip comm isLast bar _ st.trades _ signals h1 ⟨hs, rfl⟩ hdrop

lemma runBars_invRisk (slip comm : ℚ) (signals : List StrategySignal) :
    ∀ (bars : List Bar) (st : SimState),
      InvRisk slip signals st → InvRisk slip signals (runBars slip comm bars st)
  | [], _, hinv => hinv
  | b :: rest, st, hinv => by
      rw [runBars]
      exact runBars_invRisk slip comm signals rest _
        (stepBar_invRisk slip comm rest.isEmpty b st signals hinv)

/-- C9 amended: every event-driven trade's R-multiple is
`pnl / max(|entry_price - stop|, 1e-6)` where `entry_price` is the
slippage-adjusted entry `signal.entry*(1+slip)` (BUY) or
`signal.entry*(1-slip)` (SELL) of one of the input signals; for nonzero
slippage this denominator differs from `|signal.entry - stop|` except in the
degenerate cases where the adjusted entry equals the raw entry
(`signal.entry = 0`) or the two are equidistant from the stop
(`adjusted + raw = 2*stop`). -/
theorem C9_risk_denominator (slippageBps commission : ℚ) (bars : List Bar)
    (signals : List StrategySignal) :
    (∀ t ∈ simulateTrades slippageBps commission bars signals,
      t.r_multiple = t.pnl / max |t.entry_price - t.stop_price| (1/1000000)
      ∧ ∃ s ∈ signals, t.stop_price = s.stop
          ∧ t.entry_price = adjEntry (slippageBps/10000) s)
    ∧ (∀ s : StrategySignal, slippageBps/10000 ≠ 0 → s.entry ≠ 0 →
        adjEntry (slippageBps/10000) s + s.entry ≠ 2 * s.stop →
        |adjEntry (slippageBps/10000) s - s.stop| ≠ |s.entry - s.stop|) := by
  constructor
  · intro t htmem
    by_cases hguard : signals.isEmpty || bars.isEmpty
    · simp [simulateTrades, hguard] at htmem
    · have hrun : simulateTrades slippageBps commission bars signals =
          (simulateFinal slippageBps commission bars signals).trades := by
        simp [simulateTrades, hguard]
      rw [hrun] at htmem
      have hsort : sortSignals signals ⊆ signals := by
        unfold sortSignals
        exact (List.perm_insertionSort _ signals).subset
      have hinv := runBars_invRisk (slippageBps/10000) commission signals bars
        ⟨sortSignals signals, none, []⟩
        ⟨by simp, fun q hq => absurd hq (by simp), hsort⟩
      exact hinv.1 t htmem
  · intro s hslip hentry hsym habs
    rcases abs_eq_abs.1 habs with heq | hneg
    · have hadj : adjEntry (slippageBps/10000) s = s.entry := by linarith
      unfold adjEntry at hadj
      by_cases hside : s.side = Side.buy
      · rw [if_pos hside] at hadj
        have hz : s.entry * (slippageBps/10000) = 0 := by linarith
        rcases mul_eq_zero.1 hz with h | h
        · exact hentry h
        · exact hslip h
      · rw [if_neg hside] at hadj
        have hz : s.entry * (slippageBps/10000) = 0 := by linarith
        rcases mul_eq_zero.1 hz with h | h
        · exact hentry h
        · exact hslip h
    · exact hsym (by linarith)

lemma cex_run : simulateTrades 5 0 [cexBar] [cexSig] = [cexTrade] := by
  norm_num [simulateTrades, simulateFinal, runBars, stepBar, sortSignals, closePosition,
    evalExitFull, evalExit, cexSig, cexBar, cexTrade, List.takeWhile, List.dropWhile,
    pyRound]
  rw [abs_of_pos (by norm_num : (0:ℚ) < 1/40)]
  rw [max_eq_left (by norm_num : (1:ℚ)/1000000 ≤ 1/40)]
  norm_num

/-- C9 counterexample: nonzero slippage, yet the realized risk denominator
of the emitted trade equals `|signal.entry - signal.stop|`. -/
theorem C9_counterexample :
    (5 : ℚ)/10000 ≠ 0
    ∧ (simulateTrades 5 0 [cexBar] [cexSig]).map
        (fun t => max |t.entry_price - t.stop_price| (1/1000000)) =
      [|cexSig.entry - cexSig.stop|] := by
  refine ⟨by norm_num, ?_⟩
  rw [cex_run]
  norm_num [cexTrade, cexSig, abs]

/-- C9 witness for the amended theorem, at the counterexample run. -/
theorem C9_witness :
    cexTrade.r_multiple =
      cexTrade.pnl / max |cexTrade.entry_price - cexTrade.stop_price| (1/1000000) :=
  (((C9_risk_denominator 5 0 [cexBar] [cexSig]).1 cexTrade
    (by rw [cex_run]; exact List.mem_cons_self _ _)).1)

lemma cutoff_floor_max (x : ℚ) (hx : 0 ≤ x) :
    (⌊max x 1⌋).toNat = max (⌊x⌋).toNat 1 := by
  rcases le_total x 1 with h | h
  · rw [max_eq_right h]
    have h0 : (0:ℤ) ≤ ⌊x⌋ := Int.floor_nonneg.2 hx
    have h1 : ⌊x⌋ ≤ ⌊(1:ℚ)⌋ := Int.floor_le_floor h
    rw [Int.floor_one] at h1 ⊢
    omega
  · rw [max_eq_left h]
    have h1 : (1:ℤ) ≤ ⌊x⌋ := by
      rw [Int.le_floor]
      exact_mod_cast h
    omega

lemma cvar95_eq (r : List ℚ) :
    cvar95 r = meanOf ((sortAsc r).take (max (⌊(r.length : ℚ) * (1/20)⌋).toNat 1)) := by
  have hx : (0:ℚ) ≤ (r.length : ℚ) * (1/20) := by positivity
  simp only [cvar95, cutoff_floor_max _ hx]
  rw [if_pos (lt_of_lt_of_le one_pos (le_max_right _ _))]

lemma computeMetrics_cvar (powFn : ℚ → ℚ → ℚ) (sqrtFn : ℚ → ℚ)
    (initialEquity : ℚ) (trades : List TradeResult) (curve : List (ℚ × ℚ))
    (h : trades ≠ []) :
    (computeMetrics powFn sqrtFn initialEquity trades curve).cvar_95 =
      some (cvar95 (trades.map (fun t => t.r_multiple))) := by
  cases trades with
  | nil => exact absurd rfl h
  | cons t0 ts => simp only [computeMetrics]

/-- C2 amended: for every non-empty ledger of `n` trades, the reported
`cvar_95` is the mean of the worst `max(floor(0.05*n), 1)` R-multiples after
sorting ascending — `int(...)` truncates; it does not round as the claim
states. -/
theorem C2_cvar_slice (powFn : ℚ → ℚ → ℚ) (sqrtFn : ℚ → ℚ)
    (initialEquity : ℚ) (trades : List TradeResult) (curve : List (ℚ × ℚ))
    (h : trades ≠ []) :
    (computeMetrics powFn sqrtFn initialEquity trades curve).cvar_95 =
      some (meanOf ((sortAsc (trades.map (fun t => t.r_multiple))).take
        (max (⌊(trades.length : ℚ) * (1/20)⌋).toNat 1))) := by
  rw [computeMetrics_cvar powFn sqrtFn initialEquity trades curve h, cvar95_eq]
  simp

lemma trades30_r : trades30.map (fun t => t.r_multiple) = rs30 := by
  rw [trades30, List.map_map]
  exact List.map_id' rs30

/-- C2 counterexample: the reported `cvar_95` is the mean of the worst
`int(max(0.05*30, 1)) = 1` entries (−3), not of the worst
`max(round(0.05*30), 1) = 2` entries (−2) the claim prescribes. -/
theorem C2_counterexample :
    (computeMetrics pow0 sqrt0 100000 trades30
        (buildEquityCurve 100000 trades30)).cvar_95 =
      some (cvar95 (trades30.map (fun t => t.r_multiple)))
    ∧ cvar95 (trades30.map (fun t => t.r_multiple)) = -3
    ∧ cvar95Claimed (trades30.map (fun t => t.r_multiple)) = -2 := by
  refine ⟨computeMetrics_cvar pow0 sqrt0 100000 trades30 _ (by simp [trades30, rs30]), ?_, ?_⟩
  · rw [trades30_r, cvar95_eq]
    norm_num [rs30, sortAsc, meanOf, List.insertionSort, List.orderedInsert,
      List.replicate]
  · rw [trades30_r]
    norm_num [cvar95Claimed, rs30, pyRound, sortAsc, meanOf, List.insertionSort,
      List.orderedInsert, List.replicate, show ((2:ℤ)).toNat = 2 from rfl]

/-- C2 witness: the 10-trade example of the spec evaluates to −3. -/
theorem C2_witness :
    trades10 ≠ []
    ∧ (computeMetrics pow0 sqrt0 100000 trades10
        (buildEquityCurve 100000 trades10)).cvar_95 = some (-3) := by
  refine ⟨by simp [trades10], ?_⟩
  rw [C2_cvar_slice pow0 sqrt0 100000 trades10 _ (by simp [trades10])]
  norm_num [trades10, sortAsc, meanOf, List.insertionSort, List.orderedInsert]

lemma qdivOpt_isSome_of (a b : ℚ) (hb : b ≠ 0) : (qdivOpt a b).isSome = true := by
  simp [qdivOpt, hb]

lemma qdivOpt_map_isSome (f : ℚ → ℚ) (a b : ℚ) (hb : b ≠ 0) :
    ((qdivOpt a b).map f).isSome = true := by
  simp [qdivOpt, hb]

lemma qdivOpt_isSome_iff (a b : ℚ) : (qdivOpt a b).isSome = true ↔ b ≠ 0 := by
  by_cases h : b = 0 <;> simp [qdivOpt, h]

lemma runningMaxFrom_length (l : List ℚ) :
    ∀ cur : ℚ, (runningMaxFrom cur l).length = l.length := by
  induction l with
  | nil => intro cur; rfl
  | cons x xs ih => intro cur; simp [runningMaxFrom, ih]

lemma runningMax_length (l : List ℚ) : (runningMax l).length = l.length := by
  cases l with
  | nil => rfl
  | cons x xs => simp [runningMax, runningMaxFrom_length]

lemma maxDrawdownOpt_isSome (equity : List ℚ) :
    (maxDrawdownOpt equity).isSome = true ↔ ∀ q ∈ runningMax equity, q ≠ 0 := by
  have hmap : (equity.zip (runningMax equity)).map Prod.snd = runningMax equity :=
    List.map_snd_zip equity (runningMax equity) (le_of_eq (runningMax_length equity))
  have hiff : (((equity.zip (runningMax equity)).map
        (fun pr => qdivOpt (pr.1 - pr.2) pr.2)).all Option.isSome = true)
      ↔ ∀ q ∈ runningMax equity, q ≠ 0 := by
    rw [List.all_eq_true]
    constructor
    · intro h q hq
      rw [← hmap] at hq
      rcases List.mem_map.1 hq with ⟨pr, hpr, rfl⟩
      exact (qdivOpt_isSome_iff _ _).1 (h _ (List.mem_map_of_mem _ hpr))
    · intro h x hx
      rcases List.mem_map.1 hx with ⟨pr, hpr, rfl⟩
      refine (qdivOpt_isSome_iff _ _).2 ?_
      refine h pr.2 ?_
      rw [← hmap]
      exact List.mem_map_of_mem _ hpr
  unfold maxDrawdownOpt drawdownsOpt
  by_cases hall : ((equity.zip (runningMax equity)).map
      (fun pr => qdivOpt (pr.1 - pr.2) pr.2)).all Option.isSome = true
  · rw [if_pos hall]
    simpa using hiff.1 hall
  · rw [if_neg hall]
    simp only [Option.isSome_none, Bool.false_eq_true, false_iff]
    exact fun hR => hall (hiff.2 hR)

lemma sumsq_div_nonneg (l : List ℚ) (m n : ℚ) (hn : 0 ≤ n) :
    0 ≤ (l.map (fun x => (x - m) ^ 2)).sum / n := by
  apply div_nonneg _ hn
  apply List.sum_nonneg
  intro x hx
  rcases List.mem_map.1 hx with ⟨y, _, rfl⟩
  positivity

lemma sharpe_denom_ne (sqrtFn : ℚ → ℚ) (v : ℚ)
    (hsqrt : ∀ q, 0 ≤ q → 0 ≤ sqrtFn q) (hv : 0 ≤ v) :
    sqrtFn v + 1/1000000000 ≠ 0 := by
  have h0 := hsqrt v hv
  intro h
  linarith

/-- C4 amended: for every non-empty ledger (with positive initial equity),
`sharpe`, `win_rate`, `expectancy`, `exposure` and `cvar_95` are finite by
construction (positive or clamped denominators), and `mar` and `payoff` are
always reported finite because they — and only they — are coerced to `0.0`
when non-finite; `max_drawdown` is reported with no such coercion and is
finite exactly when no running-peak equity value is zero. -/
theorem C4_nonfinite_coercion (powFn : ℚ → ℚ → ℚ) (sqrtFn : ℚ → ℚ)
    (initialEquity : ℚ) (trades : List TradeResult)
    (_hinit : 0 < initialEquity) (hsqrt : ∀ q, 0 ≤ q → 0 ≤ sqrtFn q)
    (ht : trades ≠ []) :
    (computeMetrics powFn sqrtFn initialEquity trades
      (buildEquityCurve initialEquity trades)).sharpe.isSome = true
    ∧ (computeMetrics powFn sqrtFn initialEquity trades
      (buildEquityCurve initialEquity trades)).mar.isSome = true
    ∧ (computeMetrics powFn sqrtFn initialEquity trades
      (buildEquityCurve initialEquity trades)).win_rate.isSome = true
    ∧ (computeMetrics powFn sqrtFn initialEquity trades
      (buildEquityCurve initialEquity trades)).payoff.isSome = true
    ∧ (computeMetrics powFn sqrtFn initialEquity trades
      (buildEquityCurve initialEquity trades)).expectancy.isSome = true
    ∧ (computeMetrics powFn sqrtFn initialEquity trades
      (buildEquityCurve initialEquity trades)).exposure.isSome = true
    ∧ (computeMetrics powFn sqrtFn initialEquity trades
      (buildEquityCurve initialEquity trades)).cvar_95.isSome = true
    ∧ ((computeMetrics powFn sqrtFn initialEquity trades
        (buildEquityCurve initialEquity trades)).max_drawdown.isSome = true ↔
      ∀ q ∈ runningMax ((buildEquityCurve initialEquity trades).map Prod.snd), q ≠ 0) := by
  cases trades with
  | nil => exact absurd rfl ht
  | cons t0 ts =>
    have hn : (((t0 :: ts).length : ℚ)) ≠ 0 := Nat.cast_ne_zero.2 (by simp)
    refine ⟨?_, ?_, ?_, ?_, ?_, ?_, ?_, ?_⟩
    · simp only [computeMetrics]
      apply qdivOpt_map_isSome
      apply sharpe_denom_ne sqrtFn _ hsqrt
      exact sumsq_div_nonneg _ _ _ (by positivity)
    · simp only [computeMetrics, Option.isSome_some]
    · simp only [computeMetrics]
      exact qdivOpt_isSome_of _ _ hn
    · simp only [computeMetrics, Option.isSome_some]
    · simp only [computeMetrics]
      exact qdivOpt_isSome_of _ _ hn
    · simp only [computeMetrics]
      split
      · rfl
      · exact qdivOpt_isSome_of _ _ (by assumption)
    · simp only [computeMetrics, Option.isSome_some]
    · simp only [computeMetrics]
      exact maxDrawdownOpt_isSome _

/-- C4 counterexample: `max_drawdown` is reported non-finite (the claim says
it would be coerced to `0.0`), while `mar` is indeed coerced. -/
theorem C4_counterexample :
    (computeMetrics pow0 sqrt0 100000 [tcrash]
      (buildEquityCurve 100000 [tcrash])).max_drawdown = none
    ∧ (computeMetrics pow0 sqrt0 100000 [tcrash]
      (buildEquityCurve 100000 [tcrash])).mar = some 0 := by
  constructor <;>
    norm_num [computeMetrics, buildEquityCurve, buildFrom, tcrash, maxDrawdownOpt,
      drawdownsOpt, runningMax, runningMaxFrom, qdivOpt, listMin, pow0, sqrt0]

/-- C4 witness for the amended theorem (its binder-free conjuncts). -/
theorem C4_witness :
    (computeMetrics pow0 sqrt0 100000 [wTrade]
      (buildEquityCurve 100000 [wTrade])).sharpe.isSome = true
    ∧ (computeMetrics pow0 sqrt0 100000 [wTrade]
      (buildEquityCurve 100000 [wTrade])).mar.isSome = true
    ∧ (computeMetrics pow0 sqrt0 100000 [wTrade]
      (buildEquityCurve 100000 [wTrade])).win_rate.isSome = true
    ∧ (computeMetrics pow0 sqrt0 100000 [wTrade]
      (buildEquityCurve 100000 [wTrade])).payoff.isSome = true
    ∧ (computeMetrics pow0 sqrt0 100000 [wTrade]
      (buildEquityCurve 100000 [wTrade])).expectancy.isSome = true
    ∧ (computeMetrics pow0 sqrt0 100000 [wTrade]
      (buildEquityCurve 100000 [wTrade])).exposure.isSome = true
    ∧ (computeMetrics pow0 sqrt0 100000 [wTrade]
      (buildEquityCurve 100000 [wTrade])).cvar_95.isSome = true := by
  have h := C4_nonfinite_coercion pow0 sqrt0 100000 [wTrade] (by norm_num)
    (fun q _ => le_refl 0) (by simp)
  exact ⟨h.1, h.2.1, h.2.2.1, h.2.2.2.1, h.2.2.2.2.1, h.2.2.2.2.2.1, h.2.2.2.2.2.2.1⟩

lemma length_filter_enumFrom (q : VRow → Bool) :
    ∀ (l : List VRow) (n : ℕ),
      ((List.enumFrom n l).filter (fun pr => q pr.2)).length = (l.filter q).length
  | [], _ => rfl
  | x :: xs, n => by
      by_cases hq : q x <;>
        simp [List.enumFrom, List.filter_cons, hq, length_filter_enumFrom q xs (n+1)]

/-- C8: the vectorized evaluator emits exactly one trade per row with a
nonzero label (none for label 0), with side BUY for label `+1` and SELL
otherwise (hence for `-1`), entry at the bar's close, exit price
`close*(1+future_return)` identically for both sides, exit time from the row
at index `min(i+H, last_index)`, `bars_held = H`, and exit reason
`vector`. -/
theorem C8_vectorized (horizon : ℕ) (rows : List VRow) :
    vectorizedRun horizon rows =
      (rows.enum.filter (fun pr => pr.2.label != 0)).map (fun pr =>
        ⟨pr.2.timestamp,
          (rows.getD (min (pr.1 + horizon) (rows.length - 1)) dfltVRow).timestamp,
          pr.2.close,
          pr.2.close * (1 + pr.2.future_return),
          (if pr.2.label = 1 then Side.buy else Side.sell),
          (if (if pr.2.label = 1 then Side.buy else Side.sell) = Side.buy
            then pr.2.close - max |pr.2.close - (pr.2.sma20.getD pr.2.close)| (1/1000000)
            else pr.2.close + max |pr.2.close - (pr.2.sma20.getD pr.2.close)| (1/1000000)),
          pr.2.close * (1 + pr.2.future_return),
          (if (if pr.2.label = 1 then Side.buy else Side.sell) = Side.buy
            then pr.2.close * (1 + pr.2.future_return) - pr.2.close
            else pr.2.close - pr.2.close * (1 + pr.2.future_return)),
          (if (if pr.2.label = 1 then Side.buy else Side.sell) = Side.buy
            then pr.2.close * (1 + pr.2.future_return) - pr.2.close
            else pr.2.close - pr.2.close * (1 + pr.2.future_return)) /
            max |pr.2.close - (pr.2.sma20.getD pr.2.close)| (1/1000000),
          (horizon : ℤ), "vector", "VECTOR_LABEL"⟩)
    ∧ (vectorizedRun horizon rows).length =
        (rows.filter (fun row => row.label != 0)).length := by
  constructor
  · rfl
  · rw [vectorizedRun, List.length_map]
    have he : rows.enum = List.enumFrom 0 rows := rfl
    rw [he]
    exact length_filter_enumFrom (fun row => row.label != 0) rows 0

end AiTrader
